import Mathlib

set_option maxRecDepth 8192

/-
Verification of the gpu-operator reconciliation core: hashing utilities
(internal/utils/utils.go), the controllers state manager and the config
extraction normalizers, over a shallow embedding.
-/

/-! ### String utilities

Go compares strings byte-lexicographically; every string handled by the
embedded code is ASCII, so a character-list model is byte-faithful. -/

/-- Lexicographic less-or-equal on character lists, mirroring Go string order
for ASCII strings. -/
def charListLe : List Char → List Char → Bool
  | [], _ => true
  | _ :: _, [] => false
  | a :: as, b :: bs =>
    if a.toNat < b.toNat then true
    else if b.toNat < a.toNat then false
    else charListLe as bs

/-- Go string comparison: first string less-or-equal the second. -/
def strLeB (a b : String) : Bool := charListLe a.data b.data

/-- Does the second list start with the first (strings.HasPrefix on byte lists)? -/
def startsWithL : List Char → List Char → Bool
  | [], _ => true
  | _ :: _, [] => false
  | p :: ps, c :: cs => p == c && startsWithL ps cs

/-- Does the list contain the first list as a contiguous sublist
(strings.Contains on byte lists)? -/
def containsSubL (sub : List Char) : List Char → Bool
  | [] => sub.isEmpty
  | c :: cs => startsWithL sub (c :: cs) || containsSubL sub cs

/-- strings.HasPrefix s p. -/
def strStartsWith (s p : String) : Bool := startsWithL p.data s.data

/-- strings.Contains s sub. -/
def strContains (s sub : String) : Bool := containsSubL sub.data s.data

/-- Lookup in a Go map modelled as an association list (first match wins;
the model only ever builds lists with distinct keys). -/
def lookupKey (k : String) : List (String × String) → Option String
  | [] => none
  | (k2, v) :: rest => if k == k2 then some v else lookupKey k rest

/-! ### Insertion sort (model of Go sort.Slice with a name comparator) -/

/-- Insert an element into a list before the first element it is
less-or-equal to. -/
def ordInsertB (le : α → α → Bool) (x : α) : List α → List α
  | [] => [x]
  | y :: l => if le x y then x :: y :: l else y :: ordInsertB le x l

/-- Insertion sort; agrees with Go sort.Slice for lists with distinct keys and
is the stable sort on ties. -/
def insSortB (le : α → α → Bool) : List α → List α
  | [] => []
  | x :: l => ordInsertB le x (insSortB le l)

/-- Boolean sortedness check for the comparator le. -/
def sortedB (le : α → α → Bool) : List α → Bool
  | [] => true
  | [_] => true
  | a :: b :: l => le a b && sortedB le (b :: l)

theorem charListLe_total : ∀ a b : List Char, charListLe a b = false → charListLe b a = true := by
  intro a
  induction a with
  | nil => intro b h; simp [charListLe] at h
  | cons x xs ih =>
    intro b h
    cases b with
    | nil => rfl
    | cons y ys =>
      simp only [charListLe] at h ⊢
      rcases Nat.lt_trichotomy x.toNat y.toNat with hlt | heq | hgt
      · simp [hlt] at h
      · have h1 : ¬ x.toNat < y.toNat := by omega
        have h2 : ¬ y.toNat < x.toNat := by omega
        simp only [h1, h2, if_false, ite_false, if_neg] at h ⊢
        exact ih ys h
      · have h1 : ¬ x.toNat < y.toNat := by omega
        simp [hgt, h1]

theorem sortedB_ordInsertB (le : α → α → Bool)
    (htot : ∀ a b, le a b = false → le b a = true) (x : α) :
    ∀ l, sortedB le l = true → sortedB le (ordInsertB le x l) = true := by
  intro l
  induction l with
  | nil => intro _; rfl
  | cons y ys ih =>
    intro hs
    cases hxy : le x y with
    | true =>
      simp only [ordInsertB, hxy, if_true, sortedB, Bool.and_eq_true]
      exact ⟨trivial, hs⟩
    | false =>
      have hyx : le y x = true := htot x y hxy
      cases ys with
      | nil => simp [ordInsertB, hxy, sortedB, hyx]
      | cons z zs =>
        have hs' : le y z = true ∧ sortedB le (z :: zs) = true := by
          simpa [sortedB, Bool.and_eq_true] using hs
        have hins := ih hs'.2
        cases hxz : le x z with
        | true =>
          simp [ordInsertB, hxy, hxz, sortedB, hyx, hs'.2]
        | false =>
          simp only [ordInsertB, hxz, hxy, Bool.false_eq_true, if_false, ite_false] at hins ⊢
          simp only [sortedB, Bool.and_eq_true]
          exact ⟨hs'.1, hins⟩

theorem sortedB_insSortB (le : α → α → Bool)
    (htot : ∀ a b, le a b = false → le b a = true) :
    ∀ l, sortedB le (insSortB le l) = true := by
  intro l
  induction l with
  | nil => rfl
  | cons x xs ih => exact sortedB_ordInsertB le htot x _ ih

theorem ordInsertB_perm (le : α → α → Bool) (x : α) :
    ∀ l, List.Perm (ordInsertB le x l) (x :: l) := by
  intro l
  induction l with
  | nil => simp [ordInsertB]
  | cons y ys ih =>
    cases hxy : le x y with
    | true => simp [ordInsertB, hxy]
    | false =>
      simp only [ordInsertB, hxy, Bool.false_eq_true, if_false, ite_false]
      exact (List.Perm.cons y ih).trans (List.Perm.swap x y ys)

theorem insSortB_perm (le : α → α → Bool) : ∀ l, List.Perm (insSortB le l) l := by
  intro l
  induction l with
  | nil => rfl
  | cons x xs ih =>
    exact (ordInsertB_perm le x (insSortB le xs)).trans (List.Perm.cons x ih)

theorem filterMap_ordInsertB_none (le : α → α → Bool) (f : α → Option β) (x : α)
    (hx : f x = none) : ∀ l, (ordInsertB le x l).filterMap f = l.filterMap f := by
  intro l
  induction l with
  | nil => simp [ordInsertB, hx]
  | cons y ys ih =>
    cases hxy : le x y with
    | true => simp [ordInsertB, hxy, List.filterMap_cons, hx]
    | false =>
      simp only [ordInsertB, hxy, Bool.false_eq_true, if_false, ite_false,
        List.filterMap_cons]
      rw [ih]

/-! ### Object hash engine (internal/utils/utils.go)

GetObjectHash and GetObjectHashIgnoreEmptyKeys compute a 32-bit FNV-1a hash
of a textual rendering of the object. The rendering is the one produced by
spewPrinter (a go-spew ConfigState with SortKeys and SpewKeys set and methods
disabled) with the format verb used in utils.go: the value type in
parentheses, one star per level of pointer indirection, the dereferenced
value, struct fields in declaration order, map keys sorted. -/

/-- FNV-1a 32-bit offset basis (hash/fnv New32a). -/
def fnvOffset32 : Nat := 2166136261

/-- FNV-1a 32-bit prime (hash/fnv New32a). -/
def fnvPrime32 : Nat := 16777619

/-- One step of FNV-1a: xor the byte into the state, multiply by the prime,
truncate to 32 bits. -/
def fnv1aStep (h b : Nat) : Nat := ((h ^^^ b) * fnvPrime32) % 4294967296

/-- FNV-1a 32-bit digest of a byte stream. -/
def fnv1a (bytes : List Nat) : Nat := bytes.foldl fnv1aStep fnvOffset32

/-- Byte stream of an ASCII string (all strings the repository hashes are
ASCII, where character codes and bytes coincide). -/
def strBytes (s : String) : List Nat := s.data.map Char.toNat

/-- The struct type used by the repository tests for the full hash:
type simple struct { Name string; Count int }. -/
structure SimpleStruct where
  Name : String
  Count : Int
deriving DecidableEq

/-- An interface value passed to GetObjectHash: either the struct itself or a
pointer to it (GetObjectHash takes an interface value and does not call
reflect.Indirect on it). -/
inductive SimpleRef where
  | val (s : SimpleStruct)
  | ptr (s : SimpleStruct)
deriving DecidableEq

/-- Field portion of the spew rendering of a simple struct: fields in
declaration order, each as name, colon, parenthesised type, value. -/
def spewSimpleFields (s : SimpleStruct) : String :=
  "\x7bName:(string)" ++ s.Name ++ " Count:(int)" ++ toString s.Count ++ "\x7d"

/-- Spew rendering of the interface value: the type in parentheses carries one
star per level of pointer indirection, and the pointer is dereferenced for the
value part. -/
def spewSimpleRepr : SimpleRef → String
  | .val s => "(utils.simple)" ++ spewSimpleFields s
  | .ptr s => "(*utils.simple)" ++ spewSimpleFields s

/-- GetObjectHash (utils.go): FNV-32a over the spew rendering of the full
object, returned as the decimal string of Sum32. -/
def GetObjectHash (obj : SimpleRef) : String :=
  toString (fnv1a (strBytes (spewSimpleRepr obj)))

/-! #### Sparse hash: GetObjectHashIgnoreEmptyKeys -/

/-- A Go field value of one of the shapes exercised by the repository:
string, int, bool, a possibly-nil string slice, or a possibly-nil map from
string to string. none models a nil slice or map, some a non-nil one. -/
inductive GoVal where
  | str (s : String)
  | intV (n : Int)
  | boolV (b : Bool)
  | slice (xs : Option (List String))
  | mapV (entries : Option (List (String × String)))

/-- isEffectivelyZero (utils.go): reflect.IsZero, except that an empty non-nil
slice or map also counts as zero (IsZero is true for nil collections and false
for non-nil empty ones; the function adds the length check). -/
def isEffectivelyZero : GoVal → Bool
  | .str s => s == ""
  | .intV n => n == 0
  | .boolV b => b == false
  | .slice none => true
  | .slice (some xs) => xs.isEmpty
  | .mapV none => true
  | .mapV (some m) => m.isEmpty

/-- Space-joined rendering of list elements, as fmt prints slice contents. -/
def joinSpace : List String → String
  | [] => ""
  | [x] => x
  | x :: y :: rest => x ++ " " ++ joinSpace (y :: rest)

/-- Spew rendering of a field value: parenthesised type then the value; map
keys sorted because spewPrinter sets SortKeys. -/
def spewValRepr : GoVal → String
  | .str s => "(string)" ++ s
  | .intV n => "(int)" ++ toString n
  | .boolV b => "(bool)" ++ (if b then "true" else "false")
  | .slice xs => "([]string)[" ++ joinSpace (xs.getD []) ++ "]"
  | .mapV m =>
    "(map[string]string)map[" ++
      joinSpace ((insSortB (fun a b => strLeB a.1 b.1) (m.getD [])).map
        (fun p => p.1 ++ ":" ++ p.2)) ++ "]"

/-- A field of the struct handed to GetObjectHashIgnoreEmptyKeys: either a
named plain field or an embedded anonymous struct (one level, as in the
repository tests), given as its type name plus its own named fields. -/
inductive GoField where
  | plain (name : String) (v : GoVal)
  | embedded (typeName : String) (fields : List (String × GoVal))

/-- An entry of reflect.VisibleFields: field name, whether the field is the
anonymous embedded field itself, and its value. hashNonZeroFields skips
anonymous fields before reading their value, so the model stores an unused
placeholder value for them. -/
structure VisField where
  name : String
  anon : Bool
  val : GoVal

/-- reflect.VisibleFields: the struct fields in declaration order, an embedded
anonymous struct contributing an entry for the anonymous field itself plus one
entry per promoted field. -/
def visibleFields : List GoField → List VisField
  | [] => []
  | .plain n v :: rest => ⟨n, false, v⟩ :: visibleFields rest
  | .embedded t fs :: rest =>
    ⟨t, true, .str ""⟩ :: (fs.map (fun p => (⟨p.1, false, p.2⟩ : VisField))
      ++ visibleFields rest)

/-- Name comparator used to sort visible fields (sort.Slice with Name less-than;
ties cannot arise between distinct visible fields). -/
def vfLe (a b : VisField) : Bool := strLeB a.name b.name

/-- What hashNonZeroFields writes for one visible field: nothing for an
anonymous or effectively-zero field, otherwise the field name, a colon, and
the spew rendering of the value. -/
def emitField (f : VisField) : Option String :=
  if f.anon then none
  else if isEffectivelyZero f.val then none
  else some (f.name ++ ":" ++ spewValRepr f.val)

/-- hashNonZeroFields (utils.go): sort the visible fields alphabetically by
name, then write each non-anonymous, non-zero field into the hasher; writing
successive pieces into an FNV hasher hashes their concatenation. -/
def serializeFields (l : List VisField) : String :=
  String.join ((insSortB vfLe l).filterMap emitField)

/-- GetObjectHashIgnoreEmptyKeys (utils.go): FNV-32a of the non-zero-field
serialization, as a decimal string. reflect.Indirect makes a pointer argument
hash exactly like the struct it points to, so the model takes the struct. -/
def GetObjectHashIgnoreEmptyKeys (s : List GoField) : String :=
  toString (fnv1a (strBytes (serializeFields (visibleFields s))))

/-! ### Controllers state manager

The controllers package implementation is not part of the sources here (only
its tests are), so the functions below are modelled from the specification,
with the label vocabulary fixed by the tests. -/

/-- Canonical deploy label for the plain device plugin. -/
def devicePluginDeployLabelKey : String := "nvidia.com/gpu.deploy.device-plugin"

/-- Deploy label asserted for kubevirt sandbox workloads (the sandbox device
plugin). -/
def kubevirtDevicePluginDeployLabelKey : String :=
  "nvidia.com/gpu.deploy.sandbox-device-plugin"

/-- Deploy label asserted for kata sandbox workloads (the kata device plugin). -/
def kataDevicePluginDeployLabelKey : String :=
  "nvidia.com/gpu.deploy.kata-device-plugin"

/-- MIG manager deploy label. -/
def migManagerLabelKey : String := "nvidia.com/gpu.deploy.mig-manager"

/-- Explicit MIG capability label. -/
def migCapableLabelKey : String := "nvidia.com/mig.capable"

/-- Expected value of the explicit MIG capability label. -/
def migCapableLabelValue : String := "true"

/-- GPU product label written by node feature discovery. -/
def gpuProductLabelKey : String := "nvidia.com/gpu.product"

/-- Workload config string for direct container access. -/
def gpuWorkloadConfigContainer : String := "container"

/-- Workload config string for VM passthrough. -/
def gpuWorkloadConfigVMPassthrough : String := "vm-passthrough"

/-- Workload config string for mediated vGPU. -/
def gpuWorkloadConfigVMVgpu : String := "vm-vgpu"

/-- MIG-capable product family identifiers matched against the GPU product
label value. -/
def migCapableProducts : List String := ["A100", "A30", "H100"]

/-- Modelled from the spec: hasMIGCapableGPU (controllers, implementation not
under the provided sources). The explicit MIG capability label takes
precedence when present; otherwise the GPU product label value is matched
against the fixed allow-list of MIG-capable product substrings; with neither
label the answer is false. -/
def hasMIGCapableGPU (labels : List (String × String)) : Bool :=
  match lookupKey migCapableLabelKey labels with
  | some v => v == migCapableLabelValue
  | none =>
    match lookupKey gpuProductLabelKey labels with
    | some v => migCapableProducts.any (fun p => strContains v p)
    | none => false

/-- Sandbox workloads section of the cluster policy: master enablement flag
(a Go bool pointer, none when unset) and the sandbox mode string. -/
structure SandboxWorkloadsSpec where
  Enabled : Option Bool
  Mode : String

/-- Enablement flag of one deployable component (a Go bool pointer). -/
structure ComponentSpec where
  Enabled : Option Bool

/-- CDI section of the cluster policy. -/
structure CDIConfigSpec where
  Enabled : Option Bool
  NRIPluginEnabled : Option Bool

/-- The cluster policy fields consumed by the state manager functions under
verification. -/
structure ClusterPolicySpec where
  SandboxWorkloads : SandboxWorkloadsSpec
  SandboxDevicePlugin : ComponentSpec
  KataSandboxDevicePlugin : ComponentSpec
  CDI : CDIConfigSpec

/-- An unset Go bool pointer counts as false. -/
def enabledFlag (o : Option Bool) : Bool := o.getD false

/-- Modelled from the spec: validateClusterPolicySpec (controllers,
implementation not under the provided sources). Rejects a spec whose NRI
plugin is enabled while CDI is disabled; everything else passes. The result
models the returned error as the error message, none for nil. -/
def validateClusterPolicySpec (spec : ClusterPolicySpec) : Option String :=
  if enabledFlag spec.CDI.NRIPluginEnabled && !enabledFlag spec.CDI.Enabled then
    some "the NRI Plugin cannot be enabled when CDI is disabled"
  else none

/-- The controller state isStateEnabled reads: the cluster policy of the
singleton and the resolved sandbox-workloads master switch. -/
structure ClusterPolicyController where
  spec : ClusterPolicySpec
  sandboxEnabled : Bool

/-- Modelled from the spec: isStateEnabled (controllers, implementation not
under the provided sources). A sandbox-scoped state is enabled exactly when
the sandbox-workloads master switch is on, the owning component is enabled,
and the sandbox mode matches the state flavor; unset booleans count as
false. -/
def isStateEnabled (n : ClusterPolicyController) (stateName : String) : Bool :=
  if stateName == "state-sandbox-device-plugin" then
    n.sandboxEnabled && enabledFlag n.spec.SandboxDevicePlugin.Enabled
      && (n.spec.SandboxWorkloads.Mode == "kubevirt")
  else if stateName == "state-kata-device-plugin" then
    n.sandboxEnabled && enabledFlag n.spec.KataSandboxDevicePlugin.Enabled
      && (n.spec.SandboxWorkloads.Mode == "kata")
  else
    false

/-- Modelled from the spec: getEffectiveStateLabels (controllers,
implementation not under the provided sources). container asserts the plain
device-plugin deploy label and vm-vgpu the sandbox-device-plugin one,
irrespective of mode; vm-passthrough asserts exactly the kubevirt- or
kata-flavored key according to the mode; an invalid config (and, per the
enumeration in the spec, an unrecognized mode) asserts nothing. -/
def getEffectiveStateLabels (config mode : String) : List (String × String) :=
  if config == gpuWorkloadConfigContainer then
    [(devicePluginDeployLabelKey, "true")]
  else if config == gpuWorkloadConfigVMVgpu then
    [(kubevirtDevicePluginDeployLabelKey, "true")]
  else if config == gpuWorkloadConfigVMPassthrough then
    if mode == "kubevirt" then [(kubevirtDevicePluginDeployLabelKey, "true")]
    else if mode == "kata" then [(kataDevicePluginDeployLabelKey, "true")]
    else []
  else []

/-- The fixed group of keys removeAllGPUStateLabels deletes: the GPU state
deploy labels plus the kubevirt/sandbox-, kata-device-plugin and mig-manager
keys. -/
def gpuStateLabelKeys : List String :=
  [devicePluginDeployLabelKey,
   "nvidia.com/gpu.deploy.gpu-feature-discovery",
   "nvidia.com/gpu.deploy.dcgm-exporter",
   "nvidia.com/gpu.deploy.container-toolkit",
   "nvidia.com/gpu.deploy.operator-validator",
   kubevirtDevicePluginDeployLabelKey,
   kataDevicePluginDeployLabelKey,
   migManagerLabelKey]

/-- Modelled from the spec: removeAllGPUStateLabels (controllers,
implementation not under the provided sources). Deletes every key of the
fixed group from the label map and reports whether any deletion occurred;
the Go in-place map mutation is modelled by returning the resulting map. -/
def removeAllGPUStateLabels (labels : List (String × String)) :
    Bool × List (String × String) :=
  (labels.any (fun kv => gpuStateLabelKeys.contains kv.1),
   labels.filter (fun kv => !gpuStateLabelKeys.contains kv.1))

/-- Modelled from the spec: getRuntimeString (controllers, implementation not
under the provided sources). Classifies the node container runtime version
string of the form name://version by its name prefix into one of the three
known runtimes, discarding the version; anything unrecognized yields the
empty runtime together with an error, modelled as the Bool component. -/
def getRuntimeString (containerRuntimeVersion : String) : String × Bool :=
  if strStartsWith containerRuntimeVersion "docker" then ("docker", false)
  else if strStartsWith containerRuntimeVersion "containerd" then ("containerd", false)
  else if strStartsWith containerRuntimeVersion "cri-o" then ("cri-o", false)
  else ("", true)

/-! ### Config extraction normalizers

The config package implementation is likewise absent from the provided
sources (only its tests are present); ExtractEnvVars and SortEnvVars are
modelled from the specification. A Go slice is modelled as an Option of a
list: none is a nil slice, some a non-nil one. -/

/-- The indirect sources a corev1.EnvVar may carry in ValueFrom. -/
inductive EnvVarSource where
  | fieldRef
  | resourceFieldRef
  | configMapKeyRef
  | secretKeyRef
deriving DecidableEq

/-- corev1.EnvVar: name, direct value, and an optional indirect source. -/
structure CoreEnvVar where
  Name : String
  Value : String
  ValueFrom : Option EnvVarSource
deriving DecidableEq

/-- The config package EnvVar projection: name and direct value only. -/
structure EnvVar where
  Name : String
  Value : String
deriving DecidableEq

/-- Name comparator for env vars (sort.Slice by Name). -/
def envLe (a b : EnvVar) : Bool := strLeB a.Name b.Name

/-- Name-sort of an env var list. -/
def sortEnvList (l : List EnvVar) : List EnvVar := insSortB envLe l

/-- Modelled from the spec: SortEnvVars (config, implementation not under the
provided sources). Sorts a copy of the input by name; nil in, nil out, and an
empty non-nil slice stays an empty non-nil slice. The Go function sorts a
fresh copy, so the argument itself is not mutated, which the purely
functional model reflects. -/
def SortEnvVars : Option (List EnvVar) → Option (List EnvVar)
  | none => none
  | some l => some (sortEnvList l)

/-- Modelled from the spec: ExtractEnvVars (config, implementation not under
the provided sources). Keeps only the entries with a direct value, dropping
every ValueFrom entry, sorts the kept entries by name, and returns a nil
slice whenever nothing is kept (hence for nil or empty input). -/
def ExtractEnvVars (envs : Option (List CoreEnvVar)) : Option (List EnvVar) :=
  let kept := ((envs.getD []).filter (fun e => e.ValueFrom.isNone)).map
    (fun e => ({ Name := e.Name, Value := e.Value } : EnvVar))
  if kept.isEmpty then none else some (sortEnvList kept)

/-! ### Claim theorems -/

/-- C1: for every cluster-policy controller state, isStateEnabled of
state-kata-device-plugin is true iff the sandbox-workloads master switch is
on, the sandbox mode is kata and the kata device-plugin component is enabled,
and the analogous conjunction with mode kubevirt and the sandbox
device-plugin component governs state-sandbox-device-plugin; in particular
both are false whenever sandbox workloads are disabled, even with every other
flag enabled, and on the spec of the example scenario the kata state is
enabled while the sandbox state is not. -/
theorem isStateEnabled_spec :
    (∀ n : ClusterPolicyController,
      isStateEnabled n "state-kata-device-plugin"
        = (n.sandboxEnabled && enabledFlag n.spec.KataSandboxDevicePlugin.Enabled
            && (n.spec.SandboxWorkloads.Mode == "kata")))
  ∧ (∀ n : ClusterPolicyController,
      isStateEnabled n "state-sandbox-device-plugin"
        = (n.sandboxEnabled && enabledFlag n.spec.SandboxDevicePlugin.Enabled
            && (n.spec.SandboxWorkloads.Mode == "kubevirt")))
  ∧ (∀ spec : ClusterPolicySpec,
      isStateEnabled ⟨spec, false⟩ "state-kata-device-plugin" = false
        ∧ isStateEnabled ⟨spec, false⟩ "state-sandbox-device-plugin" = false)
  ∧ (isStateEnabled
        ⟨⟨⟨some true, "kata"⟩, ⟨some true⟩, ⟨some true⟩, ⟨some true, some true⟩⟩, true⟩
        "state-kata-device-plugin" = true)
  ∧ (isStateEnabled
        ⟨⟨⟨some true, "kata"⟩, ⟨some true⟩, ⟨some true⟩, ⟨some true, some true⟩⟩, true⟩
        "state-sandbox-device-plugin" = false)
  := by
  refine ⟨fun n => rfl, fun n => rfl, fun spec => ⟨rfl, rfl⟩, rfl, rfl⟩

/-- C2: getEffectiveStateLabels for vm-passthrough asserts exactly the
kubevirt-flavored sandbox-device-plugin key with value true under mode
kubevirt and exactly the kata-flavored key with value true under mode kata,
and for no mode does its result carry both keys at once. -/
theorem getEffectiveStateLabels_spec :
    lookupKey kubevirtDevicePluginDeployLabelKey
      (getEffectiveStateLabels gpuWorkloadConfigVMPassthrough "kubevirt") = some "true"
  ∧ lookupKey kataDevicePluginDeployLabelKey
      (getEffectiveStateLabels gpuWorkloadConfigVMPassthrough "kubevirt") = none
  ∧ lookupKey kataDevicePluginDeployLabelKey
      (getEffectiveStateLabels gpuWorkloadConfigVMPassthrough "kata") = some "true"
  ∧ lookupKey kubevirtDevicePluginDeployLabelKey
      (getEffectiveStateLabels gpuWorkloadConfigVMPassthrough "kata") = none
  ∧ (∀ m : String,
      ((lookupKey kubevirtDevicePluginDeployLabelKey
          (getEffectiveStateLabels gpuWorkloadConfigVMPassthrough m)).isSome
        && (lookupKey kataDevicePluginDeployLabelKey
          (getEffectiveStateLabels gpuWorkloadConfigVMPassthrough m)).isSome) = false)
  := by
  refine ⟨rfl, rfl, rfl, rfl, fun m => ?_⟩
  simp only [getEffectiveStateLabels]
  cases h1 : (m == "kubevirt") with
  | true =>
    simp only [h1, lookupKey, if_true, ite_true]
    decide
  | false =>
    cases h2 : (m == "kata") with
    | true =>
      simp only [h1, h2, lookupKey, Bool.false_eq_true, if_false, ite_false, if_true, ite_true]
      decide
    | false =>
      simp only [h1, h2, lookupKey, Bool.false_eq_true, if_false, ite_false]
      rfl

/-- C5: validateClusterPolicySpec returns the error with message
"the NRI Plugin cannot be enabled when CDI is disabled" exactly when the NRI
plugin is enabled while CDI is disabled, and no error for every other field
combination; in particular the two concrete specs of the repository test
behave as the test expects. -/
theorem validateClusterPolicySpec_spec :
    (∀ spec : ClusterPolicySpec,
      validateClusterPolicySpec spec
        = (if enabledFlag spec.CDI.NRIPluginEnabled && !enabledFlag spec.CDI.Enabled
           then some "the NRI Plugin cannot be enabled when CDI is disabled"
           else none))
  ∧ validateClusterPolicySpec
      ⟨⟨none, ""⟩, ⟨none⟩, ⟨none⟩, ⟨some false, some true⟩⟩
      = some "the NRI Plugin cannot be enabled when CDI is disabled"
  ∧ validateClusterPolicySpec
      ⟨⟨none, ""⟩, ⟨none⟩, ⟨none⟩, ⟨some true, some true⟩⟩ = none
  := ⟨fun _ => rfl, rfl, rfl⟩

/-- C6: hasMIGCapableGPU returns exactly the comparison of the explicit MIG
capability label with "true" whenever that label is present (so it takes
precedence over product inference and yields false on "false"); when absent
it is decided by whether the GPU product label value contains one of the
MIG-capable family identifiers A100, A30, H100, which holds for the
A100/H100/A30 product labels and fails for T4 and for label sets with no
recognized label. -/
theorem hasMIGCapableGPU_spec :
    (∀ (labels : List (String × String)) (v : String),
      lookupKey migCapableLabelKey labels = some v →
        hasMIGCapableGPU labels = (v == migCapableLabelValue))
  ∧ (∀ (labels : List (String × String)) (p : String),
      lookupKey migCapableLabelKey labels = none →
      lookupKey gpuProductLabelKey labels = some p →
        hasMIGCapableGPU labels = migCapableProducts.any (fun q => strContains p q))
  ∧ (∀ labels : List (String × String),
      lookupKey migCapableLabelKey labels = none →
      lookupKey gpuProductLabelKey labels = none →
        hasMIGCapableGPU labels = false)
  ∧ hasMIGCapableGPU [(migCapableLabelKey, "true")] = true
  ∧ hasMIGCapableGPU [(migCapableLabelKey, "false")] = false
  ∧ hasMIGCapableGPU [(gpuProductLabelKey, "NVIDIA-A100")] = true
  ∧ hasMIGCapableGPU [(gpuProductLabelKey, "NVIDIA-H100")] = true
  ∧ hasMIGCapableGPU [(gpuProductLabelKey, "NVIDIA-A30")] = true
  ∧ hasMIGCapableGPU [(gpuProductLabelKey, "NVIDIA-T4")] = false
  ∧ hasMIGCapableGPU [] = false
  := by
  refine ⟨?_, ?_, ?_, by decide, by decide, by decide, by decide, by decide,
    by decide, rfl⟩
  · intro labels v h
    simp [hasMIGCapableGPU, h]
  · intro labels p h1 h2
    simp [hasMIGCapableGPU, h1, h2]
  · intro labels h1 h2
    simp [hasMIGCapableGPU, h1, h2]

/-- C6 witness: the precedence branch and the product-inference branch of
hasMIGCapableGPU applied at concrete label sets. -/
theorem hasMIGCapableGPU_spec_witness :
    hasMIGCapableGPU [(migCapableLabelKey, "false")] = ("false" == migCapableLabelValue)
  ∧ hasMIGCapableGPU [(gpuProductLabelKey, "NVIDIA-T4")]
      = migCapableProducts.any (fun q => strContains "NVIDIA-T4" q)
  ∧ hasMIGCapableGPU [] = false :=
  ⟨hasMIGCapableGPU_spec.1 [(migCapableLabelKey, "false")] "false" (by decide),
   hasMIGCapableGPU_spec.2.1 [(gpuProductLabelKey, "NVIDIA-T4")] "NVIDIA-T4"
     (by decide) (by decide),
   hasMIGCapableGPU_spec.2.2.1 [] rfl rfl⟩

/-- Filtering out the elements satisfying a predicate leaves a list on which
no element satisfies it. -/
theorem any_filter_not (c : α → Bool) :
    ∀ l : List α, (l.filter (fun a => !c a)).any c = false := by
  intro l
  induction l with
  | nil => rfl
  | cons x xs ih =>
    cases hx : c x with
    | true => simp [List.filter_cons, hx, ih]
    | false => simp [List.filter_cons, hx, ih]

/-- Filtering with the same predicate twice equals filtering once. -/
theorem filter_self_idem (p : α → Bool) :
    ∀ l : List α, (l.filter p).filter p = l.filter p := by
  intro l
  induction l with
  | nil => rfl
  | cons x xs ih =>
    cases hx : p x with
    | true => simp [List.filter_cons, hx, ih]
    | false => simp [List.filter_cons, hx, ih]

/-- Lookup after removing the GPU state label group: removed keys resolve to
nothing, every other key resolves exactly as before. -/
theorem lookupKey_removeAll (labels : List (String × String)) (k : String) :
    lookupKey k (labels.filter (fun kv => !gpuStateLabelKeys.contains kv.1))
      = if gpuStateLabelKeys.contains k then none else lookupKey k labels := by
  induction labels with
  | nil =>
    simp only [List.filter_nil, lookupKey]
    split <;> rfl
  | cons kv rest ih =>
    obtain ⟨k2, v⟩ := kv
    simp only [List.filter_cons]
    cases hc : gpuStateLabelKeys.contains k2 with
    | true =>
      simp only [hc, Bool.not_true, Bool.false_eq_true, if_false, ite_false]
      rw [ih]
      cases hk : (k == k2) with
      | true =>
        have hkk : k = k2 := eq_of_beq hk
        subst hkk
        have hmem : k ∈ gpuStateLabelKeys := by simpa using hc
        simp [lookupKey, hmem]
      | false =>
        simp [lookupKey, hk]
    | false =>
      simp only [hc, Bool.not_false, if_true, ite_true, lookupKey]
      cases hk : (k == k2) with
      | true =>
        have hkk : k = k2 := eq_of_beq hk
        subst hkk
        have hmem : k ∉ gpuStateLabelKeys := by simpa using hc
        simp [hmem]
      | false =>
        simp only [hk, Bool.false_eq_true, if_false, ite_false]
        exact ih

/-- C7: removeAllGPUStateLabels is idempotent and frame preserving: running
it on its own output changes nothing further and reports false, and for every
label map the result drops exactly the keys of the fixed GPU state label
group (including the kata- and kubevirt/sandbox-device-plugin keys) while
every other key keeps its original value. -/
theorem removeAllGPUStateLabels_spec :
    (∀ labels : List (String × String),
      removeAllGPUStateLabels (removeAllGPUStateLabels labels).2
        = (false, (removeAllGPUStateLabels labels).2))
  ∧ (∀ (labels : List (String × String)) (k : String),
      lookupKey k (removeAllGPUStateLabels labels).2
        = if gpuStateLabelKeys.contains k then none else lookupKey k labels)
  := by
  constructor
  · intro labels
    simp only [removeAllGPUStateLabels, Prod.mk.injEq]
    constructor
    · exact any_filter_not (fun kv : String × String => gpuStateLabelKeys.contains kv.1) _
    · exact filter_self_idem _ _
  · intro labels k
    exact lookupKey_removeAll labels k

/-- A list starts with itself followed by anything. -/
theorem startsWithL_append_self : ∀ p m : List Char, startsWithL p (p ++ m) = true := by
  intro p m
  induction p with
  | nil => rfl
  | cons c cs ih => simp [startsWithL, ih]

/-- A prefix of the first part is a prefix of the whole. -/
theorem startsWithL_append_of (p : List Char) :
    ∀ l m : List Char, startsWithL p l = true → startsWithL p (l ++ m) = true := by
  induction p with
  | nil => intro l m _; rfl
  | cons x xs ih =>
    intro l m h
    cases l with
    | nil => simp [startsWithL] at h
    | cons c cs =>
      simp only [startsWithL, Bool.and_eq_true] at h
      simp only [List.cons_append, startsWithL, Bool.and_eq_true]
      exact ⟨h.1, ih cs m h.2⟩

/-- A pattern whose truncation to the first part mismatches it also fails on
the whole: a mismatch inside the first part cannot be repaired by whatever
follows. -/
theorem startsWithL_take_false (p : List Char) :
    ∀ l m : List Char, startsWithL (p.take l.length) l = false →
      startsWithL p (l ++ m) = false := by
  induction p with
  | nil => intro l m h; simp [startsWithL, List.take] at h
  | cons x xs ih =>
    intro l m h
    cases l with
    | nil => simp [startsWithL] at h
    | cons c cs =>
      simp only [List.length_cons, List.take_succ_cons, startsWithL] at h
      simp only [List.cons_append, startsWithL]
      cases hx : (x == c) with
      | false => simp [hx]
      | true =>
        simp only [hx, Bool.true_and] at h ⊢
        exact ih cs m h

/-- C9: getRuntimeString classifies the container runtime version string by
its name prefix only, mapping containerd://, docker:// and cri-o:// versions
to the respective runtime for every version suffix and discarding the
version; any string recognized by none of the three prefixes yields the
empty, unset runtime together with an error rather than a recognized value,
as on the concrete unknown input of the repository test. -/
theorem getRuntimeString_spec :
    (∀ v : String, getRuntimeString ("containerd://" ++ v) = ("containerd", false))
  ∧ (∀ v : String, getRuntimeString ("docker://" ++ v) = ("docker", false))
  ∧ (∀ v : String, getRuntimeString ("cri-o://" ++ v) = ("cri-o", false))
  ∧ (∀ s : String,
      strStartsWith s "docker" = false →
      strStartsWith s "containerd" = false →
      strStartsWith s "cri-o" = false →
        getRuntimeString s = ("", true))
  ∧ getRuntimeString "unknown://1.0.0" = ("", true)
  := by
  refine ⟨?_, ?_, ?_, ?_, by decide⟩
  · intro v
    have hd : strStartsWith ("containerd://" ++ v) "docker" = false := by
      simp only [strStartsWith, String.data_append]
      exact startsWithL_take_false _ _ _ (by decide)
    have hc : strStartsWith ("containerd://" ++ v) "containerd" = true := by
      simp only [strStartsWith, String.data_append]
      exact startsWithL_append_of _ _ _ (by decide)
    simp [getRuntimeString, hd, hc]
  · intro v
    have hd : strStartsWith ("docker://" ++ v) "docker" = true := by
      simp only [strStartsWith, String.data_append]
      exact startsWithL_append_of _ _ _ (by decide)
    simp [getRuntimeString, hd]
  · intro v
    have hd : strStartsWith ("cri-o://" ++ v) "docker" = false := by
      simp only [strStartsWith, String.data_append]
      exact startsWithL_take_false _ _ _ (by decide)
    have hc : strStartsWith ("cri-o://" ++ v) "containerd" = false := by
      simp only [strStartsWith, String.data_append]
      exact startsWithL_take_false _ _ _ (by decide)
    have ho : strStartsWith ("cri-o://" ++ v) "cri-o" = true := by
      simp only [strStartsWith, String.data_append]
      exact startsWithL_append_of _ _ _ (by decide)
    simp [getRuntimeString, hd, hc, ho]
  · intro s h1 h2 h3
    simp [getRuntimeString, h1, h2, h3]

/-- C9 witness: the unrecognized-prefix branch of getRuntimeString applied at
a concrete version string. -/
theorem getRuntimeString_spec_witness :
    getRuntimeString "runc://1.0.0" = ("", true) :=
  getRuntimeString_spec.2.2.2.1 "runc://1.0.0" (by decide) (by decide) (by decide)

/-- Prepending a visible field that the hasher skips leaves the sparse
serialization unchanged. -/
theorem serializeFields_skip_cons (x : VisField) (hx : emitField x = none)
    (l : List VisField) : serializeFields (x :: l) = serializeFields l := by
  simp only [serializeFields, insSortB]
  rw [filterMap_ordInsertB_none vfLe emitField x hx]

/-- A leading plain field at an effectively-zero value does not change the
sparse hash. -/
theorem hashIgnore_zero_cons (fields : List GoField) (name : String) (v : GoVal)
    (hv : isEffectivelyZero v = true) :
    GetObjectHashIgnoreEmptyKeys (.plain name v :: fields)
      = GetObjectHashIgnoreEmptyKeys fields := by
  simp only [GetObjectHashIgnoreEmptyKeys, visibleFields]
  rw [serializeFields_skip_cons _ (by simp [emitField, hv])]

/-- Inserting an element the serializer emits contributes exactly its emitted
string to the serialized parts, up to position. -/
theorem filterMap_ordInsertB_some (le : α → α → Bool) (f : α → Option β) (x : α) (s : β)
    (hx : f x = some s) :
    ∀ l, List.Perm ((ordInsertB le x l).filterMap f) (s :: l.filterMap f) := by
  intro l
  induction l with
  | nil => simp [ordInsertB, hx]
  | cons y ys ih =>
    cases hxy : le x y with
    | true => simp [ordInsertB, hxy, List.filterMap_cons, hx]
    | false =>
      simp only [ordInsertB, hxy, Bool.false_eq_true, if_false, ite_false,
        List.filterMap_cons]
      cases hy : f y with
      | none => exact ih
      | some t => exact (List.Perm.cons t ih).trans (List.Perm.swap s t _)

/-- Folding string concatenation accumulates the lengths. -/
theorem length_foldl_append (l : List String) :
    ∀ acc : String, (l.foldl (fun r s => r ++ s) acc).length
      = acc.length + (l.map String.length).sum := by
  induction l with
  | nil => intro acc; simp
  | cons x xs ih =>
    intro acc
    simp only [List.foldl_cons, List.map_cons, List.sum_cons, ih, String.length_append]
    omega

/-- The length of a joined string list is the sum of the part lengths. -/
theorem string_join_length (l : List String) :
    (String.join l).length = (l.map String.length).sum := by
  simpa [String.join] using length_foldl_append l ""

/-- A leading plain field at a non-zero value strictly grows the sparse
serialization, so the serialized non-zero field set always changes. -/
theorem serializeFields_nonzero_cons (fields : List GoField) (name : String) (v : GoVal)
    (hv : isEffectivelyZero v = false) :
    (serializeFields (visibleFields (.plain name v :: fields))
      == serializeFields (visibleFields fields)) = false := by
  have hemit : emitField ⟨name, false, v⟩ = some (name ++ ":" ++ spewValRepr v) := by
    simp [emitField, hv]
  have hperm := filterMap_ordInsertB_some vfLe emitField _ _ hemit
    (insSortB vfLe (visibleFields fields))
  have hlen : (serializeFields (⟨name, false, v⟩ :: visibleFields fields)).length
      = (name ++ ":" ++ spewValRepr v).length
        + (serializeFields (visibleFields fields)).length := by
    simp only [serializeFields, insSortB]
    rw [string_join_length, string_join_length,
      List.Perm.sum_eq (hperm.map String.length)]
    simp
  have hpos : 0 < (name ++ ":" ++ spewValRepr v).length := by
    have h1 : (name ++ ":" ++ spewValRepr v).length
        = (name ++ ":").length + (spewValRepr v).length := String.length_append _ _
    have h2 : (name ++ ":").length = name.length + ":".length := String.length_append _ _
    have h3 : ":".length = 1 := rfl
    omega
  have hne : serializeFields (⟨name, false, v⟩ :: visibleFields fields)
      ≠ serializeFields (visibleFields fields) := by
    intro heq
    rw [heq] at hlen
    omega
  have hvis : visibleFields (.plain name v :: fields)
      = ⟨name, false, v⟩ :: visibleFields fields := rfl
  rw [hvis]
  exact beq_eq_false_iff_ne.mpr hne

/-- C3 counterexample: setting a field to a non-zero value does not always
change the sparse digest: the non-zero ExtraField value below makes the
32-bit FNV-1a digest collide with the digest of the struct lacking the
field. -/
theorem getObjectHashIgnoreEmptyKeys_collision :
    isEffectivelyZero (.str "yYjamX") = false
  ∧ (GetObjectHashIgnoreEmptyKeys
        [.plain "Name" (.str "a"), .plain "ExtraField" (.str "yYjamX")]
      == GetObjectHashIgnoreEmptyKeys [.plain "Name" (.str "a")]) = true := by
  constructor
  · decide
  · decide

/-- C3 (amended): the sparse hash GetObjectHashIgnoreEmptyKeys ignores
effectively-zero fields: for every struct a field at its zero value hashes
identically to the earlier schema lacking that field; a nil slice field and
an empty non-nil slice field hash identically, likewise nil and empty maps;
an embedded anonymous struct is flattened, so the nested struct of the
repository test and its flat equivalent hash identically for all field
values; setting any field to a non-zero value always changes the serialized
non-zero field set, and it changes the digest in the repository test
instance, though the 32-bit digest itself can collide for other values. -/
theorem getObjectHashIgnoreEmptyKeys_spec :
    (∀ (fields : List GoField) (name : String) (v : GoVal),
      isEffectivelyZero v = true →
        GetObjectHashIgnoreEmptyKeys (.plain name v :: fields)
          = GetObjectHashIgnoreEmptyKeys fields)
  ∧ (∀ (fields : List GoField) (name : String),
      GetObjectHashIgnoreEmptyKeys (.plain name (.slice none) :: fields)
        = GetObjectHashIgnoreEmptyKeys (.plain name (.slice (some [])) :: fields))
  ∧ (∀ (fields : List GoField) (name : String),
      GetObjectHashIgnoreEmptyKeys (.plain name (.mapV none) :: fields)
        = GetObjectHashIgnoreEmptyKeys (.plain name (.mapV (some [])) :: fields))
  ∧ (∀ x y : GoVal,
      GetObjectHashIgnoreEmptyKeys [.embedded "inner" [("X", x)], .plain "Y" y]
        = GetObjectHashIgnoreEmptyKeys [.plain "X" x, .plain "Y" y])
  ∧ (∀ (fields : List GoField) (name : String) (v : GoVal),
      isEffectivelyZero v = false →
        (serializeFields (visibleFields (.plain name v :: fields))
          == serializeFields (visibleFields fields)) = false)
  ∧ ((GetObjectHashIgnoreEmptyKeys
        [.plain "Name" (.str "a"), .plain "ExtraField" (.str "")]
      == GetObjectHashIgnoreEmptyKeys
        [.plain "Name" (.str "a"), .plain "ExtraField" (.str "set")]) = false)
  ∧ (GetObjectHashIgnoreEmptyKeys [.plain "Name" (.str "a")]
      = GetObjectHashIgnoreEmptyKeys
          [.plain "Name" (.str "a"), .plain "ExtraField" (.str "")])
  := by
  refine ⟨hashIgnore_zero_cons, ?_, ?_, ?_, serializeFields_nonzero_cons,
    by decide, by decide⟩
  · intro fields name
    rw [hashIgnore_zero_cons fields name (.slice none) rfl,
      hashIgnore_zero_cons fields name (.slice (some [])) rfl]
  · intro fields name
    rw [hashIgnore_zero_cons fields name (.mapV none) rfl,
      hashIgnore_zero_cons fields name (.mapV (some [])) rfl]
  · intro x y
    have e1 : insSortB vfLe [⟨"inner", true, .str ""⟩, ⟨"X", false, x⟩, ⟨"Y", false, y⟩]
        = [⟨"X", false, x⟩, ⟨"Y", false, y⟩, ⟨"inner", true, .str ""⟩] := rfl
    have e2 : insSortB vfLe [⟨"X", false, x⟩, ⟨"Y", false, y⟩]
        = [⟨"X", false, x⟩, ⟨"Y", false, y⟩] := rfl
    simp only [GetObjectHashIgnoreEmptyKeys, visibleFields, List.map_cons, List.map_nil,
      List.cons_append, List.nil_append, serializeFields, e1, e2]
    cases hx : isEffectivelyZero x <;> cases hy : isEffectivelyZero y <;>
      simp [emitField, hx, hy, List.filterMap_cons]

/-- C3 witness: the zero-field clause applied at a concrete struct, where the
added zero-valued ExtraField leaves the digest unchanged, and the
serialization-growth clause applied at the concrete non-zero ExtraField of
the repository test. -/
theorem getObjectHashIgnoreEmptyKeys_spec_witness :
    GetObjectHashIgnoreEmptyKeys [.plain "ExtraField" (.str ""), .plain "Name" (.str "a")]
      = GetObjectHashIgnoreEmptyKeys [.plain "Name" (.str "a")]
  ∧ (serializeFields (visibleFields
        [.plain "ExtraField" (.str "set"), .plain "Name" (.str "a")])
      == serializeFields (visibleFields [.plain "Name" (.str "a")])) = false :=
  ⟨getObjectHashIgnoreEmptyKeys_spec.1 [.plain "Name" (.str "a")] "ExtraField" (.str "") rfl,
   getObjectHashIgnoreEmptyKeys_spec.2.2.2.2.1 [.plain "Name" (.str "a")] "ExtraField"
     (.str "set") rfl⟩

/-- C4 counterexample: GetObjectHash neither hashes a pointer and a value of
equal content identically — the spew rendering annotates the pointer type
with its indirection — nor does every change to a field value change the
digest: the two distinct Name values below produce equal 32-bit FNV-1a
digests. -/
theorem getObjectHash_counterexample :
    (GetObjectHash (.ptr ⟨"a", 1⟩) == GetObjectHash (.val ⟨"a", 1⟩)) = false
  ∧ (("Dm9tFEP0" : String) == "QVhZdTaY") = false
  ∧ (GetObjectHash (.val ⟨"Dm9tFEP0", 1⟩)
      == GetObjectHash (.val ⟨"QVhZdTaY", 1⟩)) = true := by
  refine ⟨by decide, by decide, by decide⟩

/-- C4 (amended): GetObjectHash is deterministic — equal inputs always give
equal digests — but a pointer and the value of equal content hash
differently; any change to the Name field changes the spew rendering, and
the tested field changes, Name "a" against "b" and the zero-valued Count 0
against Count 1, change the digest, though a change to a field value does
not always change the 32-bit digest itself. -/
theorem getObjectHash_amended :
    (∀ x y : SimpleRef, x = y → GetObjectHash x = GetObjectHash y)
  ∧ (∀ (n1 n2 : String) (c : Int),
      spewSimpleRepr (.val ⟨n1, c⟩) = spewSimpleRepr (.val ⟨n2, c⟩) → n1 = n2)
  ∧ ((GetObjectHash (.val ⟨"a", 1⟩) == GetObjectHash (.val ⟨"b", 1⟩)) = false)
  ∧ ((GetObjectHash (.val ⟨"a", 0⟩) == GetObjectHash (.val ⟨"a", 1⟩)) = false)
  := by
  refine ⟨fun x y h => by rw [h], ?_, by decide, by decide⟩
  intro n1 n2 c h
  have hd := congrArg String.data h
  simp only [spewSimpleRepr, spewSimpleFields, String.data_append,
    List.append_assoc] at hd
  have h1 := List.append_cancel_left hd
  have h2 := List.append_cancel_left h1
  have h3 : n1.data = n2.data := List.append_cancel_right h2
  exact String.ext h3

/-- C4 witness: determinism of GetObjectHash and Name sensitivity of the
rendering, each applied at a concrete input. -/
theorem getObjectHash_amended_witness :
    GetObjectHash (.val ⟨"a", 1⟩) = GetObjectHash (.val ⟨"a", 1⟩)
  ∧ ("a" : String) = "a" :=
  ⟨getObjectHash_amended.1 (.val ⟨"a", 1⟩) (.val ⟨"a", 1⟩) rfl,
   getObjectHash_amended.2.1 "a" "a" 1 rfl⟩

/-- The env var comparator is total. -/
theorem envLe_total : ∀ a b : EnvVar, envLe a b = false → envLe b a = true :=
  fun a b h => charListLe_total a.Name.data b.Name.data h

/-- C8: ExtractEnvVars returns a nil slice for nil and for empty input; for
every input the output entries are exactly the direct-value entries (every
ValueFrom entry is dropped) reordered; the output is sorted by name; an
entry whose value is the empty string is kept; and the mixed repository test
input yields the sorted direct entries. -/
theorem extractEnvVars_spec :
    ExtractEnvVars none = none
  ∧ ExtractEnvVars (some []) = none
  ∧ (∀ l : List CoreEnvVar,
      List.Perm ((ExtractEnvVars (some l)).getD [])
        ((l.filter (fun e => e.ValueFrom.isNone)).map
          (fun e => ({ Name := e.Name, Value := e.Value } : EnvVar))))
  ∧ (∀ l : List CoreEnvVar,
      sortedB envLe ((ExtractEnvVars (some l)).getD []) = true)
  ∧ ExtractEnvVars (some [⟨"EMPTY_VAL", "", none⟩]) = some [⟨"EMPTY_VAL", ""⟩]
  ∧ ExtractEnvVars (some
      [⟨"ZEBRA", "z", none⟩,
       ⟨"NODE_IP", "", some .fieldRef⟩,
       ⟨"ALPHA", "a", none⟩,
       ⟨"MIDDLE", "m", none⟩])
      = some [⟨"ALPHA", "a"⟩, ⟨"MIDDLE", "m"⟩, ⟨"ZEBRA", "z"⟩]
  := by
  refine ⟨rfl, rfl, ?_, ?_, by decide, by decide⟩
  · intro l
    simp only [ExtractEnvVars]
    cases hk : (((l.filter (fun e => e.ValueFrom.isNone)).map
        (fun e => ({ Name := e.Name, Value := e.Value } : EnvVar))).isEmpty) with
    | true =>
      have : ((l.filter (fun e => e.ValueFrom.isNone)).map
          (fun e => ({ Name := e.Name, Value := e.Value } : EnvVar))) = [] :=
        List.isEmpty_iff.mp hk
      simp [hk, this]
    | false =>
      simp only [hk, Bool.false_eq_true, if_false, ite_false, Option.getD_some]
      exact insSortB_perm envLe _
  · intro l
    simp only [ExtractEnvVars]
    cases hk : (((l.filter (fun e => e.ValueFrom.isNone)).map
        (fun e => ({ Name := e.Name, Value := e.Value } : EnvVar))).isEmpty) with
    | true => simp [hk, sortedB]
    | false =>
      simp only [hk, Bool.false_eq_true, if_false, ite_false, Option.getD_some]
      exact sortedB_insSortB envLe envLe_total _

/-- C10: SortEnvVars returns a name-sorted copy — a permutation of the input
with nondecreasing names — maps a nil slice to a nil slice and an empty
non-nil slice to an empty non-nil slice, unlike ExtractEnvVars which returns
nil for empty input; the Go function sorts a fresh copy, leaving its argument
unchanged, which the purely functional model reflects. -/
theorem sortEnvVars_spec :
    SortEnvVars none = none
  ∧ SortEnvVars (some ([] : List EnvVar)) = some []
  ∧ (∀ l : List EnvVar, SortEnvVars (some l) = some (sortEnvList l))
  ∧ (∀ l : List EnvVar, List.Perm (sortEnvList l) l)
  ∧ (∀ l : List EnvVar, sortedB envLe (sortEnvList l) = true)
  ∧ ExtractEnvVars (some ([] : List CoreEnvVar)) = none
  := ⟨rfl, rfl, fun _ => rfl, fun l => insSortB_perm envLe l,
      fun l => sortedB_insSortB envLe envLe_total l, rfl⟩
